import Mathlib

/-!
Verification of the openfoamEmbedded3DP post-processing core against its
natural-language specification.  The Python source under `py/` and
`pythonscripts/` is shallowly embedded: every numeric quantity that Python
stores as a float is modelled as a rational (`ℚ`) unless the computation is
genuinely transcendental (`exp`, `sqrt`, real powers), in which case `ℝ` is
used; file-system state is passed explicitly as data.
-/

namespace OF3DP

/-! ### Time-series reconciler (`py/folderparser.py`) -/

/-- Split a character list at every occurrence of `sep`
(Python `str.split(sep)`). -/
def splitOnChar (sep : Char) : List Char → List (List Char)
  | [] => [[]]
  | c :: cs =>
    let r := splitOnChar sep cs
    if c = sep then [] :: r
    else match r with
      | [] => [[c]]
      | h :: t => (c :: h) :: t

/-- Value of a digit string, most significant digit first. -/
def digitsToNat (cs : List Char) : ℕ :=
  cs.foldl (fun n c => 10 * n + (c.toNat - ('0').toNat)) 0

/-- Model of Python `float(s)` restricted to plain signed decimal literals
(the only folder names that occur: `"0"`, `"0.1"`, `"2.5"`, ...).
Returns `none` when Python `float` would raise `ValueError`. -/
def parseDecimal (s : String) : Option ℚ :=
  let (neg, body) :=
    match s.toList with
    | '-' :: rest => (true, rest)
    | '+' :: rest => (false, rest)
    | cs => (false, cs)
  let signed : ℚ → ℚ := fun q => if neg then -q else q
  match splitOnChar '.' body with
  | [a] =>
      if a ≠ [] ∧ a.all Char.isDigit then
        some (signed (digitsToNat a))
      else none
  | [a, b] =>
      if (a ≠ [] ∨ b ≠ []) ∧ a.all Char.isDigit ∧ b.all Char.isDigit then
        some (signed ((digitsToNat a : ℚ) + (digitsToNat b : ℚ) / 10 ^ b.length))
      else none
  | _ => none

/-- The file-system state of one simulation folder that `times` consults:
the names listed in its case folder (in the order `os.listdir` yields them,
which is not numeric order), and the time values parsed out of its
`.vtm.series`/`.vtk.series` manifest by `parseVTKSeries` (in manifest line
order); `[]` when no series file exists. -/
structure SimFolder where
  caseListing : List String
  seriesTimes : List ℚ

/-- `folderparser.timesFromFolder`: collect `float(name)` for every listing
entry whose name parses as a float, in listing order. -/
def timesFromFolder (f : SimFolder) : List ℚ :=
  f.caseListing.filterMap parseDecimal

/-- `folderparser.parseVTKSeries`: the times read out of the series file,
in file order (`[]` when the file does not exist).  The stale-manifest
regeneration it may trigger happens after the list is read and does not
change the returned value. -/
def parseVTKSeries (f : SimFolder) : List ℚ :=
  f.seriesTimes

/-- `folderparser.times`: return the folder-listing list when it is strictly
longer than the manifest list, otherwise the manifest list. -/
def times (f : SimFolder) : List ℚ :=
  let t1 := timesFromFolder f
  let t2 := parseVTKSeries f
  if t1.length > t2.length then t1 else t2

/-! ### Manifest regeneration (`py/folderparser.py`: `generateVTKSeries`) -/

/-- Lexicographic (code-point) order on character lists: the order numpy
uses when `np.argsort` sorts a string array, as `generateVTKSeries`
does to its string `tlist` column. -/
def lexLeChars : List Char → List Char → Bool
  | [], _ => true
  | _ :: _, [] => false
  | a :: as, b :: bs => if a < b then true else if b < a then false else lexLeChars as bs

/-- Insert one `(time, folderlabel)` pair into a list sorted by the string
time key. -/
def insertByTime (p : String × String) : List (String × String) → List (String × String)
  | [] => [p]
  | q :: rest =>
    if lexLeChars p.1.toList q.1.toList then p :: q :: rest else q :: insertByTime p rest

/-- Sort `(time, folderlabel)` pairs by the string time key, as
`l[np.argsort(l[:,0])]` does (`np.argsort` compares the times as strings,
not as numbers; it is not stable, but all keys we reason about are
distinct). -/
def sortByTime : List (String × String) → List (String × String)
  | [] => []
  | p :: rest => insertByTime p (sortByTime rest)

/-- `folderparser.generateVTKSeries`, reduced to the data it writes: given
the unsorted string time list and folder-label list, return the ordered
`(name, time)` entries of the regenerated series file, or `none` when the
function returns without writing (empty or mismatched inputs; the
mtime-freshness early return is file-system state and is not modelled). -/
def generateVTKSeries (tlist flist : List String) (cfbasename ending : String) :
    Option (List (String × String)) :=
  if tlist = [] ∨ flist = [] ∨ tlist.length ≠ flist.length then none
  else
    some ((sortByTime (tlist.zip flist)).map
      (fun tf => (cfbasename ++ "_" ++ tf.2 ++ ending, tf.1)))

/-- The numeric values of the time column written into the regenerated
manifest, in written order. -/
def writtenTimes (tlist flist : List String) (cfbasename ending : String) : List ℚ :=
  ((generateVTKSeries tlist flist cfbasename ending).getD []).filterMap
    (fun e => parseDecimal e.2)

/-! ### Snapshot quirk correction (`py/folderparser.py`: `readVTM`/`correctVTM`) -/

/-- `pat in s` on Python strings: substring test. -/
def containsSubGo (pat : List Char) : List Char → Bool
  | [] => pat.isPrefixOf []
  | c :: rest => pat.isPrefixOf (c :: rest) || containsSubGo pat rest

/-- Python `pat in s` (substring containment). -/
def containsSub (pat s : String) : Bool := containsSubGo pat.toList s.toList

/-- `s.replace('\n','')`: drop every newline character. -/
def stripNl (s : String) : String := String.mk (s.toList.filter (fun c => c ≠ '\n'))

/-- `re.split('_|/internal', line)` on the character list of `line`: split
at every `'_'` and at every occurrence of the literal `"/internal"` (the
two alternatives start with different characters, so the regex engine's
left-to-right scan is this scan). -/
def splitUnd (l : List Char) : List (List Char) :=
  match l with
  | [] => [[]]
  | c :: cs =>
    if c = '_' then [] :: splitUnd cs
    else if ("/internal".toList).isPrefixOf (c :: cs) then
      [] :: splitUnd ((c :: cs).drop 9)
    else match splitUnd cs with
      | [] => [[c]]
      | h :: t => (c :: h) :: t
  termination_by l.length
  decreasing_by
    · simp
    · simp only [List.length_drop, List.length_cons]
      omega
    · simp

/-- `re.split('_|/internal', line)[1]`, the folder label embedded in a
`DataSet name=` line.  Python raises `IndexError` when the line has no
separator; that cannot happen for a `.vtm` `DataSet` line and we return
`""` in that unreachable case. -/
def labelOf (line : String) : String :=
  match (splitUnd line.toList).get? 1 with
  | some cs => String.mk cs
  | none => ""

/-- One `f.readline()` loop `while not (pat in line) and len(line)>0`:
consume lines (each accumulated verbatim) until one contains `pat` or a
read returns the empty string (end of file).  Returns the consumed lines,
the matching line if any, and the unread remainder.  A file's lines always
end in `'\n'`, so an empty string can only be the end-of-file marker. -/
def seekLines (p : String → Bool) : List String → List String × Option String × List String
  | [] => ([], none, [])
  | l :: rest =>
    if l = "" then ([l], none, rest)
    else if p l then ([l], some l, rest)
    else
      let r := seekLines p rest
      (l :: r.1, r.2.1, r.2.2)

/-- The second `while` loop of `readVTM`/`correctVTM` starts by testing the
line already in hand (the `DataSet` line, or the end-of-file marker). -/
def seekFrom (p : String → Bool) (cur : Option String) (rest : List String) :
    List String × Option String × List String :=
  match cur with
  | none => ([], none, rest)
  | some l => if p l then ([], some l, rest) else seekLines p rest

/-- `folderparser.readVTM`: parse the folder label and embedded time out of
a `.vtm` file (given as its list of lines, each with its trailing newline),
applying the label-`"0"` special case: a snapshot labelled `"0"` with a
non-`"0"` time is reported with time `"0"` (and the file rewritten by
`correctVTM`, whose output `correctVTM` below models). -/
def readVTM (file : List String) : String × String :=
  let s1 := seekLines (containsSub "DataSet name=") file
  let folderlabel := match s1.2.1 with
    | some l => labelOf l
    | none => ""
  let s2 := seekFrom (containsSub "TimeValue") s1.2.1 s1.2.2
  let time := match s2.2.1 with
    | none => ""
    | some _ => match s2.2.2 with
      | [] => ""
      | t :: _ => stripNl t
  if folderlabel = "0" ∧ ¬ time = "0" then (folderlabel, "0")
  else (folderlabel, time)

/-- `folderparser.correctVTM`: re-emit the file line by line, replacing the
line after the `TimeValue` line by `"0\n"` when the folder label is `"0"`
but that line's time is not `"0"`.  Returns the lines written back. -/
def correctVTM (file : List String) : List String :=
  let s1 := seekLines (containsSub "DataSet name=") file
  let folderlabel := match s1.2.1 with
    | some l => labelOf l
    | none => ""
  let s2 := seekFrom (containsSub "TimeValue") s1.2.1 s1.2.2
  match s2.2.1 with
  | none => s1.1 ++ s2.1
  | some _ =>
    match s2.2.2 with
    | [] =>
      if folderlabel = "0" then s1.1 ++ s2.1 ++ ["0\n"] else s1.1 ++ s2.1
    | t :: rest3 =>
      let timeLine := if folderlabel = "0" ∧ ¬ stripNl t = "0" then "0\n" else t
      if t = "" then s1.1 ++ s2.1 ++ [timeLine]
      else s1.1 ++ s2.1 ++ [timeLine] ++ rest3

/-! ### Python rounding helpers -/

/-- Round to the nearest integer, ties to even: Python's `round`. -/
def roundHalfEven (q : ℚ) : ℤ :=
  let f := ⌊q⌋
  if q - f < 1/2 then f
  else if 1/2 < q - f then f + 1
  else if Even f then f else f + 1

/-- Python `round(q, n)`: round to `n` decimal places, ties to even. -/
def pyRound (n : ℕ) (q : ℚ) : ℚ := (roundHalfEven (q * 10 ^ n) : ℤ) / 10 ^ n

/-- Python `int(q)`: truncate toward zero. -/
def pyInt (q : ℚ) : ℤ := if 0 ≤ q then ⌊q⌋ else -⌊-q⌋

/-! ### Survival-model radial binning
(`pythonscripts/plot_metrics.py`: `survivalCalc`; same formula in
`py/interfacemetrics.py`: `takePlane`) -/

/-- `round(int(rbar/dr)*dr, 5)`: the bin the code assigns to a normalized
radius `rbar` with bin width `dr` (despite the adjacent comment
"round to the closest dr", `int` truncates). -/
def rbarBin (rbar dr : ℚ) : ℚ := pyRound 5 ((pyInt (rbar / dr) : ℤ) * dr)

/-- Modelled from the spec: "Round the normalized radius to the nearest bin
boundary (`bin_width` increments)" — the nearest multiple of `dr`. -/
def nearestBinSpec (rbar dr : ℚ) : ℚ := (roundHalfEven (rbar / dr) : ℤ) * dr

/-! ### Steady-state window detector (`py/interfacemetrics.py`: `steadyList`) -/

/-- One row of the slice-summary table, restricted to the three columns
`steadyList` reads: the two independent variables and the watched metric
column (`col`, e.g. `vertdispn`). -/
structure SSRow where
  time : ℚ
  xbehind : ℚ
  met : ℚ
deriving DecidableEq

/-- The two scan modes: group by `xbehind` scanning `time`, or group by
`time` scanning `xbehind`. -/
inductive SMode
  | xbehind
  | time
deriving DecidableEq

/-- Largest element of a list (`pandas .max()`; callers only use nonempty
selections, `0` is an arbitrary default for `[]`). -/
def listMax : List ℚ → ℚ
  | [] => 0
  | x :: xs => xs.foldl max x

/-- Smallest element of a list (`pandas .min()`). -/
def listMin : List ℚ → ℚ
  | [] => 0
  | x :: xs => xs.foldl min x

/-- First-appearance-order unique values (`pandas .unique()`). -/
def uniqueVals (l : List ℚ) : List ℚ :=
  l.foldl (fun acc v => if v ∈ acc then acc else acc ++ [v]) []

/-- Insert into an ascending list. -/
def insertRat (x : ℚ) : List ℚ → List ℚ
  | [] => [x]
  | y :: ys => if x ≤ y then x :: y :: ys else y :: insertRat x ys

/-- Ascending sort (`np.sort` / `sort_values`). -/
def sortRat : List ℚ → List ℚ
  | [] => []
  | x :: xs => insertRat x (sortRat xs)

/-- `l2 = l1[(l1[other]>=xtother-dother/2) & (l1[other]<=xtother+dother/2)]`
followed by `l2[col].max()-l2[col].min()`: the spread of the metric over
the centered window at scan value `v`. -/
def vdrangeAt (l1 : List SSRow) (otherOf : SSRow → ℚ) (dother v : ℚ) : ℚ :=
  let l2 := l1.filter (fun r =>
    decide (v - dother/2 ≤ otherOf r ∧ otherOf r ≤ v + dother/2))
  listMax (l2.map SSRow.met) - listMin (l2.map SSRow.met)

/-- The first `while` loop of `steadyList`: advance while the window spread
exceeds `vdcrit`; return the first scan value whose window is steady,
together with the scan values after it (`none` when every window exceeds
`vdcrit`). -/
def findSteadyStart (l1 : List SSRow) (otherOf : SSRow → ℚ) (dother vdcrit : ℚ) :
    List ℚ → Option (ℚ × List ℚ)
  | [] => none
  | v :: vs =>
    if vdrangeAt l1 otherOf dother v ≤ vdcrit then some (v, vs)
    else findSteadyStart l1 otherOf dother vdcrit vs

/-- The second `while` loop of `steadyList`: advance while the spread stays
within `vdcrit`; return the first scan value whose window exceeds `vdcrit`
again, provided it is not the last scan value (the source's
`if i+1<len(list2)` makes a window that only closes at the final scan
value — or never closes — open-ended). -/
def findSteadyEnd (l1 : List SSRow) (otherOf : SSRow → ℚ) (dother vdcrit : ℚ) :
    List ℚ → Option ℚ
  | [] => none
  | [_] => none
  | v :: v' :: vs =>
    if vdcrit < vdrangeAt l1 otherOf dother v then some v
    else findSteadyEnd l1 otherOf dother vdcrit (v' :: vs)

/-- The per-group body of `steadyList`: scan the group's sorted unique scan
values for the first steady window; `some (range_start, range_end)` with
the sentinel `1000` for an open-ended window, `none` when no window is
reported (the source is only reached with `vdcrit < 100`, the initial
`vdrange`).  A steady window found at the very last scan value is dropped
by the source's `if i+1<len(list2)` guard. -/
def steadyOne (l1 : List SSRow) (otherOf : SSRow → ℚ) (dother vdcrit : ℚ) :
    Option (ℚ × ℚ) :=
  let list2 := sortRat (uniqueVals (l1.map otherOf))
  match findSteadyStart l1 otherOf dother vdcrit list2 with
  | none => none
  | some (v0, rest) =>
    match rest with
    | [] => none
    | _ :: _ =>
      match findSteadyEnd l1 otherOf dother vdcrit rest with
      | some vf => some (v0, vf)
      | none => some (v0, 1000)

/-- `interfacemetrics.steadyList`, reduced to the numeric rows it returns
(the leading units row is presentation, not data): for each first-appearance
group value of the mode variable, the first steady window of the watched
metric over the scanned variable.  In `xbehind` mode the group value is
rounded to 3 decimals; in `time` mode the window bounds are.  (The source
sorts each group by the scanned variable before taking `unique`; the sorted
unique scan values and the order-insensitive window spreads are modelled
directly.) -/
def steadyList (ss : List SSRow) (dother vdcrit : ℚ) (mode : SMode) :
    List (ℚ × ℚ × ℚ) :=
  if ss.length < 2 then []
  else
    let modeOf : SSRow → ℚ := fun r => match mode with
      | .xbehind => r.xbehind
      | .time => r.time
    let otherOf : SSRow → ℚ := fun r => match mode with
      | .xbehind => r.time
      | .time => r.xbehind
    (uniqueVals (ss.map modeOf)).filterMap (fun xtmode =>
      let l1 := ss.filter (fun r => decide (modeOf r = xtmode))
      match steadyOne l1 otherOf dother vdcrit with
      | none => none
      | some p =>
        match mode with
        | .xbehind => some (pyRound 3 xtmode, p.1, p.2)
        | .time => some (xtmode, pyRound 3 p.1, pyRound 3 p.2))

/-! ### Survival probability model (`pythonscripts/plot_metrics.py`) -/

/-- The fields of the averaged pandas row that `survival.addStep` reads:
position (`x`, `z`, in mm), velocity magnitude `magu` (mm/s) and shear
stress magnitude (Pa).  These are plain data, modelled as rationals. -/
structure SurvRow where
  x : ℚ
  z : ℚ
  magu : ℚ
  shearstressmag : ℚ

/-- `plot_metrics.survival`: one radial bin's survival track.  The position,
stress and velocity histories are data (`ℚ`); the survival fraction and the
elapsed times involve `exp`, `sqrt` and real powers and live in `ℝ`. -/
structure Survival where
  rbar : ℚ
  zlist : List ℚ
  xlist : List ℚ
  totalI : ℝ
  Ilist : List ℝ
  tlist : List ℝ
  dtlist : List ℝ
  taulist : List ℚ
  vlist : List ℚ
  a : ℝ
  b : ℝ
  c : ℝ

/-- `survival.__init__(rbar, a, b, c)`. -/
def survivalInit (rbar : ℚ) (a b c : ℝ) : Survival :=
  { rbar := rbar, zlist := [], xlist := [], totalI := 1, Ilist := [1],
    tlist := [0], dtlist := [0], taulist := [0], vlist := [0],
    a := a, b := b, c := c }

/-- `survival.addStep(row)`.  `list[-1]` is modelled as
`getLast?.getD 0`; every list indexed this way starts nonempty
(`[0]`, or `zlist`/`xlist` guarded by the first branch) and only grows, so
the default is never consulted.  The Python literal `0.1` is the exact
threshold `1/10` of the decay law's discontinuity test. -/
noncomputable def Survival.addStep (s : Survival) (row : SurvRow) : Survival :=
  if s.zlist = [] then
    { s with zlist := s.zlist ++ [row.z], xlist := s.xlist ++ [row.x] }
  else
    let v := row.magu
    let zprev : ℚ := s.zlist.getLast?.getD 0
    let xprev : ℚ := s.xlist.getLast?.getD 0
    let traveled : ℝ :=
      Real.sqrt ((Rat.cast (zprev - row.z) : ℝ) ^ 2 + (Rat.cast (xprev - row.x) : ℝ) ^ 2)
    let dt : ℝ := traveled / (v : ℝ)
    let tau := row.shearstressmag
    if v < 1/10 * s.vlist.getLast?.getD 0 then
      s
    else
      let Ii : ℝ := min 1 (Real.exp (-s.a * (tau : ℝ) ^ s.b * dt ^ s.c))
      { s with
        totalI := s.totalI * Ii
        Ilist := s.Ilist ++ [s.totalI * Ii]
        tlist := s.tlist ++ [s.tlist.getLast?.getD 0 + dt]
        taulist := s.taulist ++ [tau]
        dtlist := s.dtlist ++ [dt]
        xlist := s.xlist ++ [row.x]
        zlist := s.zlist ++ [row.z]
        vlist := s.vlist ++ [v] }

/-- Folding a bin's representative samples through `addStep` in axial
order, as the plane loop of `survivalCalc` does for one bin. -/
noncomputable def addSteps (s : Survival) (rows : List SurvRow) : Survival :=
  rows.foldl Survival.addStep s

/-- `plot_metrics.survivalRateRZ`: area-weighted mean of the surviving
bins' final survival fractions, the bins given as `(rbar, totalI)` pairs in
dictionary iteration order.  Python's `weightedsum/weight` raises
`ZeroDivisionError` when the accumulated weight is zero (in particular for
an empty `rz`); that error is modelled as `none`. -/
noncomputable def survivalRateRZ (rz : List (ℚ × ℝ)) (dr : ℚ) : Option ℝ :=
  let acc := rz.foldl (fun acc p =>
    let area : ℚ := p.1 ^ 2 - (p.1 - dr) ^ 2
    (acc.1 + p.2 * (Rat.cast area : ℝ), acc.2 + area)) ((0 : ℝ), (0 : ℚ))
  if acc.2 = 0 then none else some (acc.1 / (Rat.cast acc.2 : ℝ))

/-! ### Slice summary extractor (`py/interfacemetrics.py`) -/

/-- One interface point, restricted to the columns `sliceSummary` reads
(positions in mm after the ×1000 import conversion, `vx` in mm/s, time in
seconds). -/
structure IfPoint where
  x : ℚ
  y : ℚ
  z : ℚ
  vx : ℚ
  time : ℚ

/-- `interfacemetrics.folderStats`, restricted to the legend-derived
geometry fields `sliceSummary` and `summarizeSlices` use (lengths in mm,
`bv` in mm/s after the ×1000 conversion in `__init__`). -/
structure FolderStats where
  niw : ℚ
  nt : ℚ
  ncx : ℚ
  nbz : ℚ
  bv : ℚ

/-- `self.nre = self.ncx + self.niw/2 + self.nt` (nozzle right edge). -/
def FolderStats.nre (fs : FolderStats) : ℚ := fs.ncx + fs.niw/2 + fs.nt

/-- `self.behind = self.nre + self.niw` (one inner diameter behind). -/
def FolderStats.behind (fs : FolderStats) : ℚ := fs.nre + fs.niw

/-- `self.intentzbot = self.nbz - self.niw`. -/
def FolderStats.intentzbot (fs : FolderStats) : ℚ := fs.nbz - fs.niw

/-- Twice the cross product `(a-o) × (b-o)`: positive for a left turn. -/
def ccw (o a b : ℚ × ℚ) : ℚ := (a.1 - o.1) * (b.2 - o.2) - (a.2 - o.2) * (b.1 - o.1)

/-- Lexicographic order on plane points. -/
def ptLe (p q : ℚ × ℚ) : Bool := decide (p.1 < q.1 ∨ (p.1 = q.1 ∧ p.2 ≤ q.2))

/-- Insertion into a lexicographically sorted point list. -/
def insertPt (p : ℚ × ℚ) : List (ℚ × ℚ) → List (ℚ × ℚ)
  | [] => [p]
  | q :: qs => if ptLe p q then p :: q :: qs else q :: insertPt p qs

/-- Lexicographic sort of a point list. -/
def sortPts : List (ℚ × ℚ) → List (ℚ × ℚ)
  | [] => []
  | p :: ps => insertPt p (sortPts ps)

/-- First-appearance deduplication of a point list. -/
def dedupPts (l : List (ℚ × ℚ)) : List (ℚ × ℚ) :=
  l.foldl (fun acc p => if p ∈ acc then acc else acc ++ [p]) []

/-- Push one point onto a monotone-chain hull stack (head = most recent),
popping while the last two stacked points and `p` fail to make a strict
left turn. -/
def addHullPoint (p : ℚ × ℚ) : List (ℚ × ℚ) → List (ℚ × ℚ)
  | a :: b :: rest => if ccw b a p ≤ 0 then addHullPoint p (b :: rest) else p :: a :: b :: rest
  | l => p :: l

/-- One half (lower or upper) of the monotone-chain convex hull. -/
def halfHull (pts : List (ℚ × ℚ)) : List (ℚ × ℚ) :=
  (pts.foldl (fun acc p => addHullPoint p acc) []).reverse

/-- `Polygon(pts).convex_hull` as a vertex list in counter-clockwise order
(monotone chain).  A collinear point set yields its two extreme points —
shapely's degenerate `LineString` hull — and a single repeated point
yields that point. -/
def convexHullPts (pts : List (ℚ × ℚ)) : List (ℚ × ℚ) :=
  let s := sortPts (dedupPts pts)
  match s with
  | [] => []
  | [p] => [p]
  | [p, q] => [p, q]
  | _ =>
    (halfHull s).dropLast ++ (halfHull s.reverse).dropLast

/-- Twice the signed area of the polygon with the given vertex list
(shoelace formula over the closed cycle). -/
def shoelace2 (l : List (ℚ × ℚ)) : ℚ :=
  (l.zip (l.rotate 1)).foldl (fun acc pq => acc + (pq.1.1 * pq.2.2 - pq.2.1 * pq.1.2)) 0

/-- Centroid of a hull vertex list: the standard polygon centroid formula
when the area is nonzero; for a degenerate hull, the segment midpoint
(resp. the point itself), matching shapely's centroid of the degenerate
`LineString`/`Point` hull. -/
def hullCentroid (h : List (ℚ × ℚ)) : ℚ × ℚ :=
  let A2 := shoelace2 h
  if A2 = 0 then
    match h with
    | [] => (0, 0)
    | [p] => p
    | p :: ps => ((p.1 + (ps.getLastD p).1) / 2, (p.2 + (ps.getLastD p).2) / 2)
  else
    ((h.zip (h.rotate 1)).foldl (fun acc pq =>
        acc + (pq.1.1 + pq.2.1) * (pq.1.1 * pq.2.2 - pq.2.1 * pq.1.2)) 0 / (3 * A2),
     (h.zip (h.rotate 1)).foldl (fun acc pq =>
        acc + (pq.1.2 + pq.2.2) * (pq.1.1 * pq.2.2 - pq.2.1 * pq.1.2)) 0 / (3 * A2))

/-- `interfacemetrics.centroidAndArea` (via `splitCentroid` and `.area`):
convex hull of the `(y, z)` cross-plane points, its centroid and its area.
Total: shapely raises no exception for finite numeric input (the source's
`'centroid error'` re-raise is unreachable there), so the model has no
error case. -/
def centroidAndArea (pts : List (ℚ × ℚ)) : (ℚ × ℚ) × ℚ :=
  let h := convexHullPts pts
  (hullCentroid h, |shoelace2 h| / 2)

/-- `sum(l)/len(l)` (`pandas .mean()`; callers only use nonempty lists). -/
def listMean (l : List ℚ) : ℚ := l.sum / l.length

/-- `interfacemetrics.sliceSummary`'s output row. -/
structure SliceSummaryRec where
  x : ℚ
  xbehind : ℚ
  time : ℚ
  centery : ℚ
  centerz : ℚ
  area : ℚ
  maxheight : ℚ
  maxwidth : ℚ
  centeryn : ℚ
  centerzn : ℚ
  arean : ℝ
  maxheightn : ℚ
  maxwidthn : ℚ
  vertdisp : ℚ
  vertdispn : ℚ
  aspectratio : ℚ
  speed : ℚ
  speeddecay : ℚ

/-- The per-slice failures of `sliceSummary`.  `emptySlice` stands for the
`IndexError` Python would raise on `sli.iloc[0]` for an empty group; the
extractor's groups are nonempty by construction. -/
inductive SliceErr
  | emptySlice
  | insufficientSamples
  | degenerateGeometry
deriving DecidableEq

/-- `interfacemetrics.sliceSummary`: geometric summary of one slice.
`raise Exception('Not enough points')` for fewer than 10 points;
`raise Exception('Cross-section is too small')` when a bounding extent is
zero.  `arean` divides by the real `π·(niw/2)²`. -/
noncomputable def sliceSummary (fs : FolderStats) (sli : List IfPoint) :
    Except SliceErr SliceSummaryRec :=
  match sli with
  | [] => .error .emptySlice
  | p0 :: _ =>
    let x := p0.x
    let xbehind := x - fs.ncx
    let t := p0.time
    if sli.length < 10 then .error .insufficientSamples
    else
      let ca := centroidAndArea (sli.map fun p => (p.y, p.z))
      let maxheight := listMax (sli.map IfPoint.z) - listMin (sli.map IfPoint.z)
      let maxwidth := listMax (sli.map IfPoint.y) - listMin (sli.map IfPoint.y)
      if maxheight = 0 ∨ maxwidth = 0 then .error .degenerateGeometry
      else
        let speed := listMean (sli.map IfPoint.vx)
        .ok {
          x := x, xbehind := xbehind, time := t,
          centery := ca.1.1, centerz := ca.1.2, area := ca.2,
          maxheight := maxheight, maxwidth := maxwidth,
          centeryn := ca.1.1 / fs.niw, centerzn := ca.1.2 / fs.niw,
          arean := (Rat.cast ca.2 : ℝ) / (Real.pi * (Rat.cast (fs.niw/2) : ℝ) ^ 2),
          maxheightn := maxheight / fs.niw, maxwidthn := maxwidth / fs.niw,
          vertdisp := listMin (sli.map IfPoint.z) - fs.intentzbot,
          vertdispn := (listMin (sli.map IfPoint.z) - fs.intentzbot) / fs.niw,
          aspectratio := maxheight / maxwidth,
          speed := speed, speeddecay := speed / fs.bv }

/-- `interfacemetrics.xpts`: the sorted unique `x` positions of a point
table. -/
def xpts (data : List IfPoint) : List ℚ := sortRat (uniqueVals (data.map IfPoint.x))

/-- The slices one interface-points file contributes: for each unique `x`
strictly behind `fs.behind`, the points at that exact `x`. -/
def slicesOfFile (fs : FolderStats) (data : List IfPoint) : List (List IfPoint) :=
  ((xpts data).filter (fun x => decide (fs.behind < x))).map
    (fun x => data.filter (fun p => decide (p.x = x)))

/-- `interfacemetrics.summarizeSlices`, over the point tables of the
folder's interface-points files: the source's accumulator loop — slices
with more than 9 points are summarized, a slice whose summary raises is
skipped (`except: pass`) and the loop continues. -/
noncomputable def summarizeSlices (fs : FolderStats) (files : List (List IfPoint)) :
    List SliceSummaryRec :=
  files.foldl (fun s data =>
    (slicesOfFile fs data).foldl (fun s sli =>
      if sli.length > 9 then
        match sliceSummary fs sli with
        | .ok r => s ++ [r]
        | .error _ => s
      else s) s) []

/-! ### Theorems -/

/-- `seekLines` on a file made of a clean prefix (no match, no empty
line), a matching line, and a remainder consumes exactly the prefix and
the matching line. -/
theorem seekLines_spec (p : String → Bool) (pre : List String) (m : String)
    (rest : List String) (hpre : ∀ l ∈ pre, p l = false ∧ l ≠ "")
    (hm : p m = true) (hm0 : m ≠ "") :
    seekLines p (pre ++ m :: rest) = (pre ++ [m], some m, rest) := by
  induction pre with
  | nil => simp [seekLines, hm0, hm]
  | cons a as ih =>
    have ha := hpre a (by simp)
    simp [seekLines, ha.2, ha.1, ih (fun l hl => hpre l (by simp [hl]))]

/-- **C1, counterexample.**  The claim says `times` always returns an
ascending sequence.  For a folder whose case listing contains the numeric
names `"10"` and `"2"` (this is exactly the order `os.listdir` yields, since
`"10" < "2"` lexicographically) and no series file, `times` returns
`[10, 2]`, which is not ascending. -/
theorem times_not_sorted_cex :
    times ⟨["10", "2"], []⟩ = [10, 2] ∧
    ¬ List.Sorted (· ≤ ·) (times ⟨["10", "2"], []⟩) := by
  have h : times ⟨["10", "2"], []⟩ = [10, 2] := by
    simp +decide [times, timesFromFolder, parseVTKSeries, parseDecimal,
      splitOnChar, digitsToNat]
  refine ⟨h, ?_⟩
  rw [h]
  simp [List.Sorted]
  norm_num

/-- **C1, amended.**  `times(folder)` returns the folder-listing time list
when it has strictly more entries than the manifest-derived list and the
manifest-derived list otherwise (including ties), and returns the empty
sequence when neither a manifest nor numeric folder names exist; the
returned list is in folder-listing (resp. manifest) order, which need not
be ascending. -/
theorem times_spec (f : SimFolder) :
    ((timesFromFolder f).length > (parseVTKSeries f).length →
      times f = timesFromFolder f) ∧
    ((timesFromFolder f).length ≤ (parseVTKSeries f).length →
      times f = parseVTKSeries f) ∧
    ((∀ s ∈ f.caseListing, parseDecimal s = none) → f.seriesTimes = [] →
      times f = []) := by
  refine ⟨fun h => ?_, fun h => ?_, fun h1 h2 => ?_⟩
  · simp [times, if_pos h]
  · simp [times, Nat.not_lt.mpr h]
  · have ht1 : timesFromFolder f = [] := by
      simp [timesFromFolder, List.filterMap_eq_nil_iff]
      exact h1
    simp [times, ht1, parseVTKSeries, h2]

/-- **C1, witness** for `times_spec`: a folder with only non-numeric case
entries and no series file yields the empty list. -/
theorem times_spec_witness :
    times ⟨["constant", "system", "VTK"], []⟩ = [] := by
  have h := times_spec ⟨["constant", "system", "VTK"], []⟩
  exact h.2.2 (by simp +decide [parseDecimal, splitOnChar]) rfl

/-- **C3.**  Manifest regeneration sorts the written entries by the *string*
value of the time column (`np.argsort` on a string array), so two `.vtm`
snapshots with embedded times `"2"` and `"10"` are written in the order
`10, 2`: the regenerated time list is not strictly increasing, contradicting
the code's own comment that the table is sorted by time. -/
theorem generateVTKSeries_string_sort_bug :
    generateVTKSeries ["2", "10"] ["2", "10"] "case" ".vtm"
      = some [("case_10.vtm", "10"), ("case_2.vtm", "2")] ∧
    writtenTimes ["2", "10"] ["2", "10"] "case" ".vtm" = [10, 2] ∧
    ¬ List.Sorted (· < ·) (writtenTimes ["2", "10"] ["2", "10"] "case" ".vtm") := by
  have h2 : writtenTimes ["2", "10"] ["2", "10"] "case" ".vtm" = [10, 2] := by
    simp +decide [writtenTimes, generateVTKSeries, sortByTime, insertByTime, lexLeChars,
      parseDecimal, splitOnChar, digitsToNat]
  refine ⟨?_, h2, ?_⟩
  · simp +decide [generateVTKSeries, sortByTime, insertByTime, lexLeChars]
  · rw [h2]
    simp [List.Sorted]
    norm_num

/-- **C7.**  For a well-formed `.vtm` file — lines before the
`DataSet name=` line contain neither that marker nor the `TimeValue`
marker, the embedded folder label parses to `"0"`, and the line after the
`TimeValue` line carries the embedded time — (1) when the embedded time is
not `"0"`, `readVTM` reports time `"0"` (the quirk correction); (2) when
the file is already corrected (embedded time `"0"`), `correctVTM` rewrites
the file unchanged and `readVTM` still returns `("0", "0")`: the
correction is idempotent. -/
theorem readVTM_quirk_correction
    (pre mid post : List String) (ds tv tm : String)
    (hpre : ∀ l ∈ pre, containsSub "DataSet name=" l = false ∧ l ≠ "")
    (hds : containsSub "DataSet name=" ds = true) (hds0 : ds ≠ "")
    (hdsTv : containsSub "TimeValue" ds = false)
    (hlab : labelOf ds = "0")
    (hmid : ∀ l ∈ mid, containsSub "TimeValue" l = false ∧ l ≠ "")
    (htv : containsSub "TimeValue" tv = true) (htv0 : tv ≠ "")
    (htm0 : tm ≠ "") :
    (stripNl tm ≠ "0" →
      readVTM (pre ++ ds :: (mid ++ tv :: tm :: post)) = ("0", "0")) ∧
    (stripNl tm = "0" →
      correctVTM (pre ++ ds :: (mid ++ tv :: tm :: post)) =
        pre ++ ds :: (mid ++ tv :: tm :: post) ∧
      readVTM (pre ++ ds :: (mid ++ tv :: tm :: post)) = ("0", "0")) := by
  have h1 : seekLines (containsSub "DataSet name=") (pre ++ ds :: (mid ++ tv :: tm :: post))
      = (pre ++ [ds], some ds, mid ++ tv :: tm :: post) :=
    seekLines_spec _ pre ds _ hpre hds hds0
  have h2 : seekLines (containsSub "TimeValue") (mid ++ tv :: tm :: post)
      = (mid ++ [tv], some tv, tm :: post) :=
    seekLines_spec _ mid tv _ hmid htv htv0
  constructor
  · intro htm
    simp [readVTM, h1, h2, seekFrom, hdsTv, hlab, stripNl, htm]
  · intro htm
    constructor
    · simp only [correctVTM, h1, h2, seekFrom, hdsTv, Bool.false_eq_true, if_false, hlab, htm]
      simp [htm0]
    · simp [readVTM, h1, h2, seekFrom, hdsTv, hlab, htm]

/-- **C7, witness**: a concrete quirked file (label `"0"`, embedded time
`"0.05"`) reads back time `"0"`; its concrete corrected counterpart
(embedded time `"0"`) is left unchanged by `correctVTM`. -/
theorem readVTM_quirk_correction_witness :
    readVTM ["<VTKFile>\n", "<DataSet name=\"case_0/internal.vtm\"/>\n", "<Block>\n",
        "<DataArray Name=\"TimeValue\">\n", "0.05\n", "</VTKFile>\n"] = ("0", "0") ∧
    correctVTM ["<VTKFile>\n", "<DataSet name=\"case_0/internal.vtm\"/>\n", "<Block>\n",
        "<DataArray Name=\"TimeValue\">\n", "0\n", "</VTKFile>\n"] =
      ["<VTKFile>\n", "<DataSet name=\"case_0/internal.vtm\"/>\n", "<Block>\n",
        "<DataArray Name=\"TimeValue\">\n", "0\n", "</VTKFile>\n"] := by
  constructor
  · exact (readVTM_quirk_correction ["<VTKFile>\n"] ["<Block>\n"] ["</VTKFile>\n"]
      "<DataSet name=\"case_0/internal.vtm\"/>\n" "<DataArray Name=\"TimeValue\">\n" "0.05\n"
      (by decide) (by decide) (by decide) (by decide)
      (by simp +decide [labelOf, splitUnd])
      (by decide) (by decide) (by decide) (by decide)).1 (by decide)
  · exact ((readVTM_quirk_correction ["<VTKFile>\n"] ["<Block>\n"] ["</VTKFile>\n"]
      "<DataSet name=\"case_0/internal.vtm\"/>\n" "<DataArray Name=\"TimeValue\">\n" "0\n"
      (by decide) (by decide) (by decide) (by decide)
      (by simp +decide [labelOf, splitUnd])
      (by decide) (by decide) (by decide) (by decide)).2 (by decide)).1

/-- **C2, counterexample.**  One group (time `1`) with metric values
`[0.10, 0.10, 0.11, 0.50]` at scan positions `[0, 1, 2, 3]`, tolerance
`0.02`, window width `1`: the detector reports the single row
`(1, 0, 1000)` — range-end `1000`, not `2` as claimed, because each
centered window of width `1` at integer spacing holds a single observation
and its spread `0` never exceeds the tolerance. -/
theorem steadyList_width1_cex :
    steadyList [⟨1, 0, 1/10⟩, ⟨1, 1, 1/10⟩, ⟨1, 2, 11/100⟩, ⟨1, 3, 1/2⟩] 1 (2/100) .time
      = [(1, 0, 1000)] ∧
    ¬ ∃ r ∈ steadyList [⟨1, 0, 1/10⟩, ⟨1, 1, 1/10⟩, ⟨1, 2, 11/100⟩, ⟨1, 3, 1/2⟩]
        1 (2/100) .time, r.2.1 = 0 ∧ r.2.2 = 2 := by
  have hL1 : ([⟨1, 0, 1/10⟩, ⟨1, 1, 1/10⟩, ⟨1, 2, 11/100⟩, ⟨1, 3, 1/2⟩] : List SSRow).filter
      (fun r => decide (r.time = 1)) =
      [⟨1, 0, 1/10⟩, ⟨1, 1, 1/10⟩, ⟨1, 2, 11/100⟩, ⟨1, 3, 1/2⟩] := by
    norm_num [List.filter_cons]
  have hv0 : vdrangeAt [⟨1, 0, 1/10⟩, ⟨1, 1, 1/10⟩, ⟨1, 2, 11/100⟩, ⟨1, 3, 1/2⟩]
      (fun r => r.xbehind) 1 0 = 0 := by
    norm_num [vdrangeAt, List.filter_cons, listMax, listMin]
  have hv1 : vdrangeAt [⟨1, 0, 1/10⟩, ⟨1, 1, 1/10⟩, ⟨1, 2, 11/100⟩, ⟨1, 3, 1/2⟩]
      (fun r => r.xbehind) 1 1 = 0 := by
    norm_num [vdrangeAt, List.filter_cons, listMax, listMin]
  have hv2 : vdrangeAt [⟨1, 0, 1/10⟩, ⟨1, 1, 1/10⟩, ⟨1, 2, 11/100⟩, ⟨1, 3, 1/2⟩]
      (fun r => r.xbehind) 1 2 = 0 := by
    norm_num [vdrangeAt, List.filter_cons, listMax, listMin]
  have hone : steadyOne [⟨1, 0, 1/10⟩, ⟨1, 1, 1/10⟩, ⟨1, 2, 11/100⟩, ⟨1, 3, 1/2⟩]
      (fun r => r.xbehind) 1 (1/50) = some (0, 1000) := by
    have hl2 : sortRat (uniqueVals
        (([⟨1, 0, 1/10⟩, ⟨1, 1, 1/10⟩, ⟨1, 2, 11/100⟩, ⟨1, 3, 1/2⟩] : List SSRow).map
          (fun r => r.xbehind))) = [0, 1, 2, 3] := by
      norm_num [uniqueVals, sortRat, insertRat]
    norm_num [steadyOne, hl2, findSteadyStart, findSteadyEnd, hv0, hv1, hv2]
  have hmain : steadyList [⟨1, 0, 1/10⟩, ⟨1, 1, 1/10⟩, ⟨1, 2, 11/100⟩, ⟨1, 3, 1/2⟩]
      1 (2/100) .time = [(1, 0, 1000)] := by
    norm_num [steadyList, uniqueVals, List.filterMap_cons, hL1, hone, pyRound, roundHalfEven]
  refine ⟨hmain, ?_⟩
  rw [hmain]
  norm_num

/-- **C2, amended.**  On the claimed input (tolerance `0.02`, window width
`1`, metric `[0.10, 0.10, 0.11, 0.50]` at positions `[0, 1, 2, 3]`) the
detector reports a steady window with range-start `0` and range-end `1000`,
the open-ended sentinel. -/
theorem steadyList_width1_sentinel :
    steadyList [⟨1, 0, 1/10⟩, ⟨1, 1, 1/10⟩, ⟨1, 2, 11/100⟩, ⟨1, 3, 1/2⟩] 1 (2/100) .time
      = [(1, 0, 1000)] := by
  have hL1 : ([⟨1, 0, 1/10⟩, ⟨1, 1, 1/10⟩, ⟨1, 2, 11/100⟩, ⟨1, 3, 1/2⟩] : List SSRow).filter
      (fun r => decide (r.time = 1)) =
      [⟨1, 0, 1/10⟩, ⟨1, 1, 1/10⟩, ⟨1, 2, 11/100⟩, ⟨1, 3, 1/2⟩] := by
    norm_num [List.filter_cons]
  have hv0 : vdrangeAt [⟨1, 0, 1/10⟩, ⟨1, 1, 1/10⟩, ⟨1, 2, 11/100⟩, ⟨1, 3, 1/2⟩]
      (fun r => r.xbehind) 1 0 = 0 := by
    norm_num [vdrangeAt, List.filter_cons, listMax, listMin]
  have hv1 : vdrangeAt [⟨1, 0, 1/10⟩, ⟨1, 1, 1/10⟩, ⟨1, 2, 11/100⟩, ⟨1, 3, 1/2⟩]
      (fun r => r.xbehind) 1 1 = 0 := by
    norm_num [vdrangeAt, List.filter_cons, listMax, listMin]
  have hv2 : vdrangeAt [⟨1, 0, 1/10⟩, ⟨1, 1, 1/10⟩, ⟨1, 2, 11/100⟩, ⟨1, 3, 1/2⟩]
      (fun r => r.xbehind) 1 2 = 0 := by
    norm_num [vdrangeAt, List.filter_cons, listMax, listMin]
  have hone : steadyOne [⟨1, 0, 1/10⟩, ⟨1, 1, 1/10⟩, ⟨1, 2, 11/100⟩, ⟨1, 3, 1/2⟩]
      (fun r => r.xbehind) 1 (1/50) = some (0, 1000) := by
    have hl2 : sortRat (uniqueVals
        (([⟨1, 0, 1/10⟩, ⟨1, 1, 1/10⟩, ⟨1, 2, 11/100⟩, ⟨1, 3, 1/2⟩] : List SSRow).map
          (fun r => r.xbehind))) = [0, 1, 2, 3] := by
      norm_num [uniqueVals, sortRat, insertRat]
    norm_num [steadyOne, hl2, findSteadyStart, findSteadyEnd, hv0, hv1, hv2]
  norm_num [steadyList, uniqueVals, List.filterMap_cons, hL1, hone, pyRound, roundHalfEven]

/-- **C8, counterexample.**  In `time` mode the group value is *not*
rounded: a group at time `0.0001` (four decimal places) is reported
verbatim as `0.0001`, which differs from its 3-decimal rounding `0`, so
not all numeric outputs of the reported row are rounded to 3 decimals. -/
theorem steadyList_rounding_cex :
    steadyList [⟨1/10000, 0, 0⟩, ⟨1/10000, 1, 0⟩, ⟨1/10000, 2, 0⟩, ⟨1/10000, 3, 0⟩]
      1 (1/100) .time = [(1/10000, 0, 1000)] ∧
    pyRound 3 (1/10000 : ℚ) ≠ (1/10000 : ℚ) := by
  have hL1 : ([⟨1/10000, 0, 0⟩, ⟨1/10000, 1, 0⟩, ⟨1/10000, 2, 0⟩, ⟨1/10000, 3, 0⟩] :
      List SSRow).filter (fun r => decide (r.time = 1/10000)) =
      [⟨1/10000, 0, 0⟩, ⟨1/10000, 1, 0⟩, ⟨1/10000, 2, 0⟩, ⟨1/10000, 3, 0⟩] := by
    norm_num [List.filter_cons]
  have hv0 : vdrangeAt [⟨1/10000, 0, 0⟩, ⟨1/10000, 1, 0⟩, ⟨1/10000, 2, 0⟩, ⟨1/10000, 3, 0⟩]
      (fun r => r.xbehind) 1 0 = 0 := by
    norm_num [vdrangeAt, List.filter_cons, listMax, listMin]
  have hv1 : vdrangeAt [⟨1/10000, 0, 0⟩, ⟨1/10000, 1, 0⟩, ⟨1/10000, 2, 0⟩, ⟨1/10000, 3, 0⟩]
      (fun r => r.xbehind) 1 1 = 0 := by
    norm_num [vdrangeAt, List.filter_cons, listMax, listMin]
  have hv2 : vdrangeAt [⟨1/10000, 0, 0⟩, ⟨1/10000, 1, 0⟩, ⟨1/10000, 2, 0⟩, ⟨1/10000, 3, 0⟩]
      (fun r => r.xbehind) 1 2 = 0 := by
    norm_num [vdrangeAt, List.filter_cons, listMax, listMin]
  have hone : steadyOne [⟨1/10000, 0, 0⟩, ⟨1/10000, 1, 0⟩, ⟨1/10000, 2, 0⟩, ⟨1/10000, 3, 0⟩]
      (fun r => r.xbehind) 1 (1/100) = some (0, 1000) := by
    have hl2 : sortRat (uniqueVals
        (([⟨1/10000, 0, 0⟩, ⟨1/10000, 1, 0⟩, ⟨1/10000, 2, 0⟩, ⟨1/10000, 3, 0⟩] :
          List SSRow).map (fun r => r.xbehind))) = [0, 1, 2, 3] := by
      norm_num [uniqueVals, sortRat, insertRat]
    norm_num [steadyOne, hl2, findSteadyStart, findSteadyEnd, hv0, hv1, hv2]
  constructor
  · norm_num [steadyList, uniqueVals, List.filterMap_cons, hL1, hone, pyRound, roundHalfEven]
  · rw [pyRound, roundHalfEven]
    norm_num

/-- **C8, amended.**  Every reported row carries its group's *actual*
values, rounded on exactly one side: in `xbehind` mode the row is
`(pyRound 3 g, o0, of)` — the group value `g` rounded to 3 decimals, the
window bounds `(o0, of)` computed by the scan for that group passed
through unrounded — and in `time` mode the row is
`(g, pyRound 3 o0, pyRound 3 of)` — the group value passed through
unrounded, the computed window bounds rounded to 3 decimals. -/
theorem steadyList_rounding_policy (ss : List SSRow) (dother vdcrit : ℚ)
    (r : ℚ × ℚ × ℚ) :
    (r ∈ steadyList ss dother vdcrit .xbehind →
      ∃ g p, g ∈ uniqueVals (ss.map SSRow.xbehind) ∧
        steadyOne (ss.filter fun row => decide (row.xbehind = g)) (fun row => row.time)
          dother vdcrit = some p ∧
        r = (pyRound 3 g, p.1, p.2)) ∧
    (r ∈ steadyList ss dother vdcrit .time →
      ∃ g p, g ∈ uniqueVals (ss.map SSRow.time) ∧
        steadyOne (ss.filter fun row => decide (row.time = g)) (fun row => row.xbehind)
          dother vdcrit = some p ∧
        r = (g, pyRound 3 p.1, pyRound 3 p.2)) := by
  constructor
  · intro hr
    by_cases hlen : ss.length < 2
    · simp [steadyList, hlen] at hr
    · simp only [steadyList, if_neg hlen] at hr
      rw [List.mem_filterMap] at hr
      obtain ⟨g, hg, hfg⟩ := hr
      split at hfg
      · cases hfg
      · rename_i p heq
        cases hfg
        exact ⟨g, p, hg, heq, rfl⟩
  · intro hr
    by_cases hlen : ss.length < 2
    · simp [steadyList, hlen] at hr
    · simp only [steadyList, if_neg hlen] at hr
      rw [List.mem_filterMap] at hr
      obtain ⟨g, hg, hfg⟩ := hr
      split at hfg
      · cases hfg
      · rename_i p heq
        cases hfg
        exact ⟨g, p, hg, heq, rfl⟩

/-- **C8, witness** for `steadyList_rounding_policy`, exercising both
modes on concrete data: the `xbehind`-mode row for the group at
`xbehind = 0.0001` is its rounded group value `0` with the unrounded
bounds `(0, 1000)`, and the `time`-mode row for the group at
`time = 0.0001` is the verbatim group value `0.0001` with the rounded
bounds `(0, 1000)`. -/
theorem steadyList_rounding_policy_witness :
    (∃ g p, g ∈ uniqueVals
        (([⟨0, 1/10000, 0⟩, ⟨1, 1/10000, 0⟩, ⟨2, 1/10000, 0⟩, ⟨3, 1/10000, 0⟩] :
          List SSRow).map SSRow.xbehind) ∧
      steadyOne (([⟨0, 1/10000, 0⟩, ⟨1, 1/10000, 0⟩, ⟨2, 1/10000, 0⟩, ⟨3, 1/10000, 0⟩] :
          List SSRow).filter fun row => decide (row.xbehind = g)) (fun row => row.time)
        1 (1/100) = some p ∧
      ((0:ℚ), ((0:ℚ), (1000:ℚ))) = (pyRound 3 g, p.1, p.2)) ∧
    (∃ g p, g ∈ uniqueVals
        (([⟨1/10000, 0, 0⟩, ⟨1/10000, 1, 0⟩, ⟨1/10000, 2, 0⟩, ⟨1/10000, 3, 0⟩] :
          List SSRow).map SSRow.time) ∧
      steadyOne (([⟨1/10000, 0, 0⟩, ⟨1/10000, 1, 0⟩, ⟨1/10000, 2, 0⟩, ⟨1/10000, 3, 0⟩] :
          List SSRow).filter fun row => decide (row.time = g)) (fun row => row.xbehind)
        1 (1/100) = some p ∧
      ((1:ℚ)/10000, ((0:ℚ), (1000:ℚ))) = (g, pyRound 3 p.1, pyRound 3 p.2)) := by
  constructor
  · have hL1 : ([⟨0, 1/10000, 0⟩, ⟨1, 1/10000, 0⟩, ⟨2, 1/10000, 0⟩, ⟨3, 1/10000, 0⟩] :
        List SSRow).filter (fun r => decide (r.xbehind = 1/10000)) =
        [⟨0, 1/10000, 0⟩, ⟨1, 1/10000, 0⟩, ⟨2, 1/10000, 0⟩, ⟨3, 1/10000, 0⟩] := by
      norm_num [List.filter_cons]
    have hv0 : vdrangeAt [⟨0, 1/10000, 0⟩, ⟨1, 1/10000, 0⟩, ⟨2, 1/10000, 0⟩, ⟨3, 1/10000, 0⟩]
        (fun r => r.time) 1 0 = 0 := by
      norm_num [vdrangeAt, List.filter_cons, listMax, listMin]
    have hv1 : vdrangeAt [⟨0, 1/10000, 0⟩, ⟨1, 1/10000, 0⟩, ⟨2, 1/10000, 0⟩, ⟨3, 1/10000, 0⟩]
        (fun r => r.time) 1 1 = 0 := by
      norm_num [vdrangeAt, List.filter_cons, listMax, listMin]
    have hv2 : vdrangeAt [⟨0, 1/10000, 0⟩, ⟨1, 1/10000, 0⟩, ⟨2, 1/10000, 0⟩, ⟨3, 1/10000, 0⟩]
        (fun r => r.time) 1 2 = 0 := by
      norm_num [vdrangeAt, List.filter_cons, listMax, listMin]
    have hone : steadyOne [⟨0, 1/10000, 0⟩, ⟨1, 1/10000, 0⟩, ⟨2, 1/10000, 0⟩, ⟨3, 1/10000, 0⟩]
        (fun r => r.time) 1 (1/100) = some (0, 1000) := by
      have hl2 : sortRat (uniqueVals
          (([⟨0, 1/10000, 0⟩, ⟨1, 1/10000, 0⟩, ⟨2, 1/10000, 0⟩, ⟨3, 1/10000, 0⟩] :
            List SSRow).map (fun r => r.time))) = [0, 1, 2, 3] := by
        norm_num [uniqueVals, sortRat, insertRat]
      norm_num [steadyOne, hl2, findSteadyStart, findSteadyEnd, hv0, hv1, hv2]
    have hpr : pyRound 3 ((1:ℚ)/10000) = 0 := by
      have hf : (⌊(1 : ℚ)/10⌋ : ℤ) = 0 := by
        rw [Int.floor_eq_iff]
        norm_num
      rw [pyRound, roundHalfEven]
      norm_num [hf]
    have hr : ((0:ℚ), ((0:ℚ), (1000:ℚ))) ∈
        steadyList [⟨0, 1/10000, 0⟩, ⟨1, 1/10000, 0⟩, ⟨2, 1/10000, 0⟩, ⟨3, 1/10000, 0⟩]
          1 (1/100) .xbehind := by
      have heval : steadyList [⟨0, 1/10000, 0⟩, ⟨1, 1/10000, 0⟩, ⟨2, 1/10000, 0⟩, ⟨3, 1/10000, 0⟩]
          1 (1/100) .xbehind = [(0, 0, 1000)] := by
        norm_num [steadyList, uniqueVals, List.filterMap_cons, hL1, hone, hpr]
      rw [heval]
      simp
    exact (steadyList_rounding_policy _ _ _ _).1 hr
  · have hL1 : ([⟨1/10000, 0, 0⟩, ⟨1/10000, 1, 0⟩, ⟨1/10000, 2, 0⟩, ⟨1/10000, 3, 0⟩] :
        List SSRow).filter (fun r => decide (r.time = 1/10000)) =
        [⟨1/10000, 0, 0⟩, ⟨1/10000, 1, 0⟩, ⟨1/10000, 2, 0⟩, ⟨1/10000, 3, 0⟩] := by
      norm_num [List.filter_cons]
    have hv0 : vdrangeAt [⟨1/10000, 0, 0⟩, ⟨1/10000, 1, 0⟩, ⟨1/10000, 2, 0⟩, ⟨1/10000, 3, 0⟩]
        (fun r => r.xbehind) 1 0 = 0 := by
      norm_num [vdrangeAt, List.filter_cons, listMax, listMin]
    have hv1 : vdrangeAt [⟨1/10000, 0, 0⟩, ⟨1/10000, 1, 0⟩, ⟨1/10000, 2, 0⟩, ⟨1/10000, 3, 0⟩]
        (fun r => r.xbehind) 1 1 = 0 := by
      norm_num [vdrangeAt, List.filter_cons, listMax, listMin]
    have hv2 : vdrangeAt [⟨1/10000, 0, 0⟩, ⟨1/10000, 1, 0⟩, ⟨1/10000, 2, 0⟩, ⟨1/10000, 3, 0⟩]
        (fun r => r.xbehind) 1 2 = 0 := by
      norm_num [vdrangeAt, List.filter_cons, listMax, listMin]
    have hone : steadyOne [⟨1/10000, 0, 0⟩, ⟨1/10000, 1, 0⟩, ⟨1/10000, 2, 0⟩, ⟨1/10000, 3, 0⟩]
        (fun r => r.xbehind) 1 (1/100) = some (0, 1000) := by
      have hl2 : sortRat (uniqueVals
          (([⟨1/10000, 0, 0⟩, ⟨1/10000, 1, 0⟩, ⟨1/10000, 2, 0⟩, ⟨1/10000, 3, 0⟩] :
            List SSRow).map (fun r => r.xbehind))) = [0, 1, 2, 3] := by
        norm_num [uniqueVals, sortRat, insertRat]
      norm_num [steadyOne, hl2, findSteadyStart, findSteadyEnd, hv0, hv1, hv2]
    have hr : ((1/10000 : ℚ), ((0:ℚ), (1000:ℚ))) ∈
        steadyList [⟨1/10000, 0, 0⟩, ⟨1/10000, 1, 0⟩, ⟨1/10000, 2, 0⟩, ⟨1/10000, 3, 0⟩]
          1 (1/100) .time := by
      have heval : steadyList [⟨1/10000, 0, 0⟩, ⟨1/10000, 1, 0⟩, ⟨1/10000, 2, 0⟩, ⟨1/10000, 3, 0⟩]
          1 (1/100) .time = [(1/10000, 0, 1000)] := by
        norm_num [steadyList, uniqueVals, List.filterMap_cons, hL1, hone, pyRound, roundHalfEven]
      rw [heval]
      simp
    exact (steadyList_rounding_policy _ _ _ _).2 hr

/-- **C6.**  `round(int(rbar/dr)*dr, 5)` truncates toward zero rather than
rounding to the nearest bin: at `rbar = 0.08`, `dr = 0.05`, the code
assigns bin `0.05` while the nearest bin boundary (its own comment's and
the spec's "round to the closest dr") is `0.10`. -/
theorem rbarBin_truncates_bug :
    rbarBin (2/25) (1/20) = 1/20 ∧ nearestBinSpec (2/25) (1/20) = 1/10 ∧
    rbarBin (2/25) (1/20) ≠ nearestBinSpec (2/25) (1/20) := by
  have h1 : ((2 : ℚ)/25) / (1/20) = 8/5 := by norm_num
  have hf : (⌊(8 : ℚ)/5⌋ : ℤ) = 1 := by
    rw [Int.floor_eq_iff]
    norm_num
  have hround : roundHalfEven ((8 : ℚ)/5) = 2 := by
    rw [roundHalfEven]
    norm_num [hf]
  constructor
  · rw [rbarBin, h1, pyInt, if_pos (by norm_num), hf]
    rw [pyRound, roundHalfEven]
    norm_num [Int.floor_intCast]
  constructor
  · rw [nearestBinSpec, h1, hround]
    norm_num
  · rw [rbarBin, nearestBinSpec, h1, pyInt, if_pos (by norm_num), hf, hround]
    rw [pyRound, roundHalfEven]
    norm_num [Int.floor_intCast]

/-- **C5.**  A step whose velocity magnitude is below `1/10` of the last
recorded velocity is skipped whole: folding the sample list with the
discontinuous step inserted gives exactly the same track — same cumulative
survival and same history lists — as folding without it, and the steps
after it are processed as if it were never there. -/
theorem addStep_discontinuity_skipped (s0 : Survival) (pre post : List SurvRow)
    (r : SurvRow) (hne : (addSteps s0 pre).zlist ≠ [])
    (hv : r.magu < 1/10 * (addSteps s0 pre).vlist.getLast?.getD 0) :
    addSteps s0 (pre ++ r :: post) = addSteps s0 (pre ++ post) := by
  have hskip : Survival.addStep (addSteps s0 pre) r = addSteps s0 pre := by
    simp only [Survival.addStep, if_neg hne, if_pos hv]
  calc addSteps s0 (pre ++ r :: post)
      = addSteps (Survival.addStep (addSteps s0 pre) r) post := by
        simp [addSteps, List.foldl_append]
    _ = addSteps (addSteps s0 pre) post := by rw [hskip]
    _ = addSteps s0 (pre ++ post) := by simp [addSteps, List.foldl_append]

/-- **C5, witness** for `addStep_discontinuity_skipped`: after two
processed samples at velocity `5`, a sample at velocity `1/10 < 1/10·5` is
skipped. -/
theorem addStep_discontinuity_skipped_witness :
    addSteps (survivalInit 0 0 0 0)
        ([⟨0, 0, 5, 0⟩, ⟨1, 1, 5, 0⟩] ++ ⟨2, 2, 1/10, 0⟩ :: [⟨3, 3, 5, 0⟩]) =
      addSteps (survivalInit 0 0 0 0) ([⟨0, 0, 5, 0⟩, ⟨1, 1, 5, 0⟩] ++ [⟨3, 3, 5, 0⟩]) := by
  apply addStep_discontinuity_skipped
  · norm_num [addSteps, Survival.addStep, survivalInit, List.getLast?]
    exact List.cons_ne_nil _ _
  · norm_num [addSteps, Survival.addStep, survivalInit, List.getLast?]

/-- One `addStep` never increases the cumulative survival fraction and
keeps it positive: the per-step decay factor is `min 1 (exp ...)`, positive
and at most `1`. -/
theorem addStep_totalI_bounds (s : Survival) (row : SurvRow) (h : 0 < s.totalI) :
    0 < (Survival.addStep s row).totalI ∧ (Survival.addStep s row).totalI ≤ s.totalI := by
  simp only [Survival.addStep]
  split
  · exact ⟨h, le_refl _⟩
  · split
    · exact ⟨h, le_refl _⟩
    · constructor
      · exact mul_pos h (lt_min one_pos (Real.exp_pos _))
      · exact mul_le_of_le_one_right h.le (min_le_left _ _)

/-- Folding any sample list never increases the cumulative survival
fraction and keeps it positive. -/
theorem addSteps_totalI_bounds (rows : List SurvRow) (s : Survival) (h : 0 < s.totalI) :
    0 < (addSteps s rows).totalI ∧ (addSteps s rows).totalI ≤ s.totalI := by
  induction rows generalizing s with
  | nil => exact ⟨h, le_refl _⟩
  | cons r rs ih =>
    have h1 := addStep_totalI_bounds s r h
    have h2 := ih (Survival.addStep s r) h1.1
    exact ⟨h2.1, h2.2.trans h1.2⟩

/-- **C9.**  The cumulative survival fraction starts at `1`, stays in
`(0, 1]` after any sequence of `addStep` calls, and is non-increasing as
further steps are folded in: each decay factor is clamped to at most `1`
and `exp` of a real is strictly positive. -/
theorem survival_fraction_invariant (rbar : ℚ) (a b c : ℝ) (rows more : List SurvRow) :
    (survivalInit rbar a b c).totalI = 1 ∧
    0 < (addSteps (survivalInit rbar a b c) rows).totalI ∧
    (addSteps (survivalInit rbar a b c) rows).totalI ≤ 1 ∧
    (addSteps (survivalInit rbar a b c) (rows ++ more)).totalI ≤
      (addSteps (survivalInit rbar a b c) rows).totalI := by
  have h0 : (survivalInit rbar a b c).totalI = 1 := rfl
  have h1 := addSteps_totalI_bounds rows (survivalInit rbar a b c) (by rw [h0]; norm_num)
  have h2 := addSteps_totalI_bounds more (addSteps (survivalInit rbar a b c) rows) h1.1
  refine ⟨h0, h1.1, by rw [← h0]; exact h1.2, ?_⟩
  calc (addSteps (survivalInit rbar a b c) (rows ++ more)).totalI
      = (addSteps (addSteps (survivalInit rbar a b c) rows) more).totalI := by
        simp [addSteps, List.foldl_append]
    _ ≤ _ := h2.2

/-- **C10.**  With no surviving bins (for example after `survivalCalc`
returns an empty collection for an empty point cloud, or after the coverage
filter discards every bin) the area-weighted mean accumulates a zero total
weight, and `weightedsum/weight` raises `ZeroDivisionError` rather than
returning a value: in the model, `none`. -/
theorem survivalRateRZ_empty_division_error (dr : ℚ) :
    survivalRateRZ [] dr = none := by
  simp [survivalRateRZ]

/-- The slice loop's accumulator fold appends exactly the successful
summaries, in order: a slice whose summary raises contributes nothing and
the fold continues. -/
theorem foldlSlices_eq (fs : FolderStats) (slis : List (List IfPoint))
    (s : List SliceSummaryRec) :
    slis.foldl (fun s sli =>
      if sli.length > 9 then
        match sliceSummary fs sli with
        | .ok r => s ++ [r]
        | .error _ => s
      else s) s =
    s ++ slis.filterMap (fun sli =>
      if sli.length > 9 then (sliceSummary fs sli).toOption else none) := by
  induction slis generalizing s with
  | nil => simp
  | cons sli rest ih =>
    simp only [List.foldl_cons, List.filterMap_cons]
    by_cases h : sli.length > 9
    · rw [if_pos h, if_pos h]
      cases hss : sliceSummary fs sli with
      | ok r =>
        rw [ih (s ++ [r])]
        simp [Except.toOption]
      | error e =>
        rw [ih s]
        rfl
    · rw [if_neg h, if_neg h, ih s]

/-- The file loop flattens to the slice sequence of all files. -/
theorem summarizeSlices_aux (fs : FolderStats) (files : List (List IfPoint))
    (s : List SliceSummaryRec) :
    files.foldl (fun s data =>
      (slicesOfFile fs data).foldl (fun s sli =>
        if sli.length > 9 then
          match sliceSummary fs sli with
          | .ok r => s ++ [r]
          | .error _ => s
        else s) s) s =
    s ++ (files.flatMap (slicesOfFile fs)).filterMap (fun sli =>
      if sli.length > 9 then (sliceSummary fs sli).toOption else none) := by
  induction files generalizing s with
  | nil => simp
  | cons d rest ih =>
    simp only [List.foldl_cons, List.flatMap_cons, List.filterMap_append]
    rw [foldlSlices_eq, ih, List.append_assoc]

/-- **C4.**  For every nonempty slice, `sliceSummary` fails with
`InsufficientSamplesError` iff the slice has fewer than 10 points, and
fails with `DegenerateGeometryError` iff (with at least 10 points) the
bounding height or bounding width is zero; and the folder-level loop of
`summarizeSlices` skips exactly the failing slices, keeping the successful
summaries of the remaining slices in order. -/
theorem sliceSummary_error_policy (fs : FolderStats) (sli : List IfPoint)
    (hne : sli ≠ []) (files : List (List IfPoint)) :
    (sliceSummary fs sli = .error .insufficientSamples ↔ sli.length < 10) ∧
    (sliceSummary fs sli = .error .degenerateGeometry ↔
      (10 ≤ sli.length ∧
        (listMax (sli.map IfPoint.z) - listMin (sli.map IfPoint.z) = 0 ∨
         listMax (sli.map IfPoint.y) - listMin (sli.map IfPoint.y) = 0))) ∧
    summarizeSlices fs files =
      (files.flatMap (slicesOfFile fs)).filterMap (fun sli =>
        if sli.length > 9 then (sliceSummary fs sli).toOption else none) := by
  obtain ⟨p0, rest, rfl⟩ : ∃ p0 rest, sli = p0 :: rest := by
    cases sli with
    | nil => exact absurd rfl hne
    | cons p0 rest => exact ⟨p0, rest, rfl⟩
  have hthird : summarizeSlices fs files =
      (files.flatMap (slicesOfFile fs)).filterMap (fun sli =>
        if sli.length > 9 then (sliceSummary fs sli).toOption else none) := by
    rw [summarizeSlices, summarizeSlices_aux]
    simp
  by_cases hlen : (p0 :: rest).length < 10
  · have hv : sliceSummary fs (p0 :: rest) = .error .insufficientSamples := by
      simp only [sliceSummary, if_pos hlen]
    refine ⟨by rw [hv]; exact iff_of_true rfl hlen, ?_, hthird⟩
    rw [hv]
    refine iff_of_false (by simp) ?_
    rintro ⟨h10, -⟩
    simp only [List.length_cons] at h10 hlen
    omega
  · by_cases hdeg : listMax ((p0 :: rest).map IfPoint.z) -
        listMin ((p0 :: rest).map IfPoint.z) = 0 ∨
        listMax ((p0 :: rest).map IfPoint.y) - listMin ((p0 :: rest).map IfPoint.y) = 0
    · have hv : sliceSummary fs (p0 :: rest) = .error .degenerateGeometry := by
        simp only [sliceSummary, if_neg hlen]
        rw [if_pos hdeg]
      refine ⟨by rw [hv]; exact iff_of_false (by simp) hlen, ?_, hthird⟩
      rw [hv]
      refine iff_of_true rfl ⟨?_, hdeg⟩
      simp only [List.length_cons]
      simp only [List.length_cons] at hlen
      omega
    · have hok : ∃ r, sliceSummary fs (p0 :: rest) = .ok r := by
        simp only [sliceSummary, if_neg hlen]
        rw [if_neg hdeg]
        exact ⟨_, rfl⟩
      obtain ⟨r, hv⟩ := hok
      refine ⟨by rw [hv]; exact iff_of_false (by simp) hlen, ?_, hthird⟩
      rw [hv]
      refine iff_of_false (by simp) ?_
      rintro ⟨-, hcond⟩
      exact absurd hcond hdeg

/-- **C4, witness** for `sliceSummary_error_policy`: a one-point slice
fails with `InsufficientSamplesError`, and the folder loop over no files
yields no summaries. -/
theorem sliceSummary_error_policy_witness :
    sliceSummary ⟨1, 0, 0, 0, 1⟩ [⟨5, 0, 0, 0, 1⟩] = .error .insufficientSamples ∧
    summarizeSlices ⟨1, 0, 0, 0, 1⟩ [] = [] := by
  have h := sliceSummary_error_policy ⟨1, 0, 0, 0, 1⟩ [⟨5, 0, 0, 0, 1⟩] (by simp) []
  refine ⟨h.1.mpr (by norm_num), ?_⟩
  rw [h.2.2]
  simp

end OF3DP
